import Mathlib

/-!
Verification of the lattice particle generation and region-sampling subsystem
of the SPHinXsys driver programs.

The embedding is two-dimensional (`Vecd = Vec2d` in all visible drivers) and
idealises the C++ `Real` (double) arithmetic as exact rational arithmetic.
Code that is present in the visible sources (`CalcNumberOfLattices`, the
`ParticleGeneratorLattice` constructor, the driver shape/region definitions,
the observer input tables) is embedded directly from those sources; the parts
of the library that the sources only call (the region containment test, the
bounding-box query, the lattice emission loop of `CreateBaseParticles`) are
modelled from the specification, as marked on each such definition.
-/

set_option maxHeartbeats 1000000

namespace SPHinXsys

/-- A 2D point with rational coordinates. All visible drivers build the 2D
    version of the library (`Vecd = Vec2d`, `Point = Vec2d`). -/
structure Vec2 where
  x : ℚ
  y : ℚ
deriving DecidableEq

/-- A contour: the vertex list of a polygon, closed when the first vertex
    equals the last. -/
abbrev Contour := List Vec2

/-- Modelled from the spec: whether point `p` lies exactly on the segment from
    `a` to `b` (collinearity via the cross product, plus the segment bounding
    box). The geometry kernel's point-on-boundary test is not among the
    visible sources. -/
def onSegment (p a b : Vec2) : Bool :=
  decide ((b.x - a.x) * (p.y - a.y) = (b.y - a.y) * (p.x - a.x)) &&
  decide (min a.x b.x ≤ p.x) && decide (p.x ≤ max a.x b.x) &&
  decide (min a.y b.y ≤ p.y) && decide (p.y ≤ max a.y b.y)

/-- The edge list of a contour: consecutive vertex pairs. -/
def edges (c : Contour) : List (Vec2 × Vec2) := c.zip c.tail

/-- Whether edge `e` straddles the horizontal line through `p`
    (exactly one endpoint strictly above). -/
def straddles (p : Vec2) (e : Vec2 × Vec2) : Bool :=
  decide (p.y < e.1.y) != decide (p.y < e.2.y)

/-- Whether the horizontal ray from `p` towards larger `x` crosses edge `e`
    (the standard ray-casting step). -/
def edgeCrosses (p : Vec2) (e : Vec2 × Vec2) : Bool :=
  straddles p e &&
  decide (p.x < e.1.x + (p.y - e.1.y) * (e.2.x - e.1.x) / (e.2.y - e.1.y))

/-- Modelled from the spec: the even-odd crossing number of the point-in-polygon
    test. The geometry kernel itself is not among the visible sources. -/
def crossingNumber (c : Contour) (p : Vec2) : ℕ :=
  (edges c).countP (edgeCrosses p)

/-- Whether `p` lies exactly on the boundary of contour `c`. -/
def onContour (c : Contour) (p : Vec2) : Bool :=
  (edges c).any fun e => onSegment p e.1 e.2

/-- Modelled from the spec: closed point-in-polygon test — boundary points
    resolve to inside ("closed region" convention of the spec). -/
def containsClosed (c : Contour) (p : Vec2) : Bool :=
  onContour c p || decide (crossingNumber c p % 2 = 1)

/-- Modelled from the spec: strict-interior point-in-polygon test. A subtracted
    contour carves out only its open interior, so that a point exactly on a
    contour edge is never removed by a subtraction (the spec's boundary
    convention, and the convention its annulus scenario requires). -/
def containsOpen (c : Contour) (p : Vec2) : Bool :=
  !onContour c p && decide (crossingNumber c p % 2 = 1)

/-- The boolean region-combination operators of the drivers
    (`RegionBooleanOps::add`, `RegionBooleanOps::sub`). -/
inductive RegionBooleanOps where
  | add
  | sub
deriving DecidableEq

/-- A region: the ordered list of (contour, operator) layers supplied through
    `add_geometry`, applied in insertion order. -/
structure Region where
  ops : List (Contour × RegionBooleanOps)
deriving DecidableEq

def Region.empty : Region := ⟨[]⟩

/-- `Region::add_geometry`: appends one contour layer. -/
def Region.add_geometry (r : Region) (c : Contour) (op : RegionBooleanOps) : Region :=
  ⟨r.ops ++ [(c, op)]⟩

/-- `Region::done_modeling`: finalizes the region. In this embedding regions
    are immutable values, so finalization is the identity. -/
def Region.done_modeling (r : Region) : Region := r

/-- Modelled from the spec: layered containment. A point is inside the region
    iff it is inside the union of all `add` contours and outside all `sub`
    contours layered over it, applied strictly in insertion order. -/
def Region.contains (r : Region) (p : Vec2) : Bool :=
  r.ops.foldl
    (fun inside g =>
      match g.2 with
      | RegionBooleanOps.add => inside || containsClosed g.1 p
      | RegionBooleanOps.sub => inside && !containsOpen g.1 p)
    false

/-- The vertices of all contours added with `add` (the spec: the bounding box
    is a deterministic function of the `add` contours only). -/
def Region.addVertices (r : Region) : List Vec2 :=
  r.ops.flatMap fun g =>
    match g.2 with
    | RegionBooleanOps.add => g.1
    | RegionBooleanOps.sub => []

/-- Modelled from the spec: `Region::regionbound`, the axis-aligned bounding
    box (lower, upper) spanned by all contours added with `add`. -/
def regionbound (r : Region) : Vec2 × Vec2 :=
  match r.addVertices with
  | [] => (⟨0, 0⟩, ⟨0, 0⟩)
  | v :: vs =>
    (⟨vs.foldl (fun m w => min m w.x) v.x, vs.foldl (fun m w => min m w.y) v.y⟩,
     ⟨vs.foldl (fun m w => max m w.x) v.x, vs.foldl (fun m w => max m w.y) v.y⟩)

/-- Component access for a 2D vector, mirroring `operator[]` on `Vecd`. -/
def Vec2.get (v : Vec2) (i : Fin 2) : ℚ :=
  if i.val = 0 then v.x else v.y

/-- Embedded from `ParticleGeneratorLattice::CalcNumberOfLattices`
    (particle_generator_lattice.cpp): for each axis `i` of the 2D build the
    loop stores `static_cast<int>(ceil((upper_bound[i] - lower_bound[i]) /
    lattice_spacing))` into `number_of_lattices_[i]`. -/
def CalcNumberOfLattices (lower_bound upper_bound : Vec2) (lattice_spacing : ℚ) :
    Fin 2 → ℤ :=
  (List.finRange 2).foldl
    (fun number_of_lattices i =>
      Function.update number_of_lattices i
        ⌈(upper_bound.get i - lower_bound.get i) / lattice_spacing⌉)
    fun _ => 0

/-- The state of a `ParticleGeneratorLattice` object after construction. -/
structure ParticleGeneratorLattice where
  region_ : Region
  lower_bound_ : Vec2
  upper_bound_ : Vec2
  lattice_spacing_ : ℚ
  number_of_lattices_ : Fin 2 → ℤ

/-- Embedded from the `ParticleGeneratorLattice` constructor
    (particle_generator_lattice.cpp): it queries `regionbound` for the bounds,
    takes the body's particle spacing, and calls `CalcNumberOfLattices`. -/
def mkParticleGeneratorLattice (region : Region) (particle_spacing : ℚ) :
    ParticleGeneratorLattice :=
  ⟨region, (regionbound region).1, (regionbound region).2, particle_spacing,
    CalcNumberOfLattices (regionbound region).1 (regionbound region).2 particle_spacing⟩

/-- The candidate position of lattice cell `(k1, k2)`: the cell center
    `lower + (k + 1/2) * spacing` on each axis. -/
def latticePosition (lower : Vec2) (s : ℚ) (k1 k2 : ℕ) : Vec2 :=
  ⟨lower.x + ((k1 : ℚ) + 1 / 2) * s, lower.y + ((k2 : ℚ) + 1 / 2) * s⟩

/-- Modelled from the spec: the emission loop of the lattice generator (the
    body of `CreateBaseParticles` is not among the visible sources). It visits
    every index tuple `(k1, k2)` with `0 ≤ ki < ni`, the last axis varying
    fastest, and emits the cell-center position with volume `spacing ^ 2`
    whenever the region contains it. -/
def latticeSequence (g : ParticleGeneratorLattice) : List (Vec2 × ℚ) :=
  (List.range (g.number_of_lattices_ 0).toNat).flatMap fun k1 =>
    (List.range (g.number_of_lattices_ 1).toNat).flatMap fun k2 =>
      let p := latticePosition g.lower_bound_ g.lattice_spacing_ k1 k2
      if g.region_.contains p then [(p, g.lattice_spacing_ ^ 2)] else []

/-- The failure taxonomy of the generator. -/
inductive GenError where
  | DegenerateRegionError
deriving DecidableEq

/-- Modelled from the spec: `generate()` fails with `DegenerateRegionError`
    when the spacing is nonpositive or a lattice count is nonpositive, and
    otherwise performs one full emission pass. -/
def generate (g : ParticleGeneratorLattice) : Except GenError (List (Vec2 × ℚ)) :=
  if g.lattice_spacing_ ≤ 0 ∨ g.number_of_lattices_ 0 ≤ 0 ∨ g.number_of_lattices_ 1 ≤ 0 then
    Except.error GenError.DegenerateRegionError
  else
    Except.ok (latticeSequence g)

/-- The spec's enumeration order, stated independently of the loop structure:
    the `t`-th visited tuple of a row-major traversal of an `n1 × n2` grid with
    the last axis varying fastest is `(t / n2, t % n2)`. -/
def rowMajorTuples (n1 n2 : ℕ) : List (ℕ × ℕ) :=
  (List.range (n1 * n2)).map fun t => (t / n2, t % n2)

/-- The spec's layered-containment characterisation: some `add` layer contains
    the point (boundary included) and no `sub` layer inserted after it removes
    the point (a subtraction removes only the open interior). -/
def LayerWitness (r : Region) (p : Vec2) : Prop :=
  ∃ l1 c l2, r.ops = l1 ++ (c, RegionBooleanOps.add) :: l2 ∧
    containsClosed c p = true ∧
    ∀ g ∈ l2, g.2 = RegionBooleanOps.sub → containsOpen g.1 p = false

/-- A structurally valid region: every contour is nonempty and closed. -/
def Region.valid (r : Region) : Prop :=
  ∀ g ∈ r.ops, g.1 ≠ [] ∧ g.1.head? = g.1.getLast?

/-- The precondition of `addContour`/`add_geometry`: the vertex list is closed
    (first vertex equals last) and has at least 3 distinct points. -/
def validContourInput (c : List Vec2) : Prop :=
  c.head? = c.getLast? ∧ ∃ u ∈ c, ∃ v ∈ c, ∃ w ∈ c, u ≠ v ∧ u ≠ w ∧ v ≠ w

namespace Depolarization

/-- Geometry parameters of depolarization.cpp: `L = 1.0`, `H = 1.0`. -/
def L : ℚ := 1
def H : ℚ := 1

/-- Embedded from `CreatShape` in depolarization.cpp. -/
def CreatShape : List Vec2 :=
  [⟨0, 0⟩, ⟨0, H⟩, ⟨L, H⟩, ⟨L, 0⟩, ⟨0, 0⟩]

/-- Embedded from the `MuscleBody` constructor: one `add` layer, then
    `done_modeling`. -/
def MuscleBody_body_region : Region :=
  (Region.empty.add_geometry CreatShape RegionBooleanOps.add).done_modeling

/-- Embedded from the `VoltageObserver` constructor: the direct-specification
    input table `body_input_points_volumes_` holds `(Point(0.3, 0.7), 0.0)`. -/
def VoltageObserver_body_input_points_volumes : List (Vec2 × ℚ) :=
  [(⟨3 / 10, 7 / 10⟩, 0)]

end Depolarization

namespace FillingTank

/-- Geometry parameters of filling_tank.cpp. -/
def DL : ℚ := 5366 / 1000
def DH : ℚ := 5366 / 1000
def particle_spacing_ref : ℚ := 25 / 1000
def BW : ℚ := particle_spacing_ref * 4
def LL : ℚ := 2 * BW
def LH : ℚ := 125 / 1000
def inlet_height : ℚ := 1
def inlet_distance : ℚ := -BW

/-- Embedded from `CreatWaterBlockShape` in filling_tank.cpp. -/
def CreatWaterBlockShape : List Vec2 :=
  [⟨inlet_distance, inlet_height⟩, ⟨inlet_distance, LH + inlet_height⟩,
   ⟨LL + inlet_distance, LH + inlet_height⟩, ⟨LL + inlet_distance, inlet_height⟩,
   ⟨inlet_distance, inlet_height⟩]

/-- Embedded from the `WallBoundary` constructor: the outer wall contour. -/
def outer_wall_shape : List Vec2 :=
  [⟨-BW, -BW⟩, ⟨-BW, DH + BW⟩, ⟨DL + BW, DH + BW⟩, ⟨DL + BW, -BW⟩, ⟨-BW, -BW⟩]

/-- Embedded from the `WallBoundary` constructor: the inner wall contour. -/
def inner_wall_shape : List Vec2 :=
  [⟨0, 0⟩, ⟨0, DH⟩, ⟨DL, DH⟩, ⟨DL, 0⟩, ⟨0, 0⟩]

/-- Embedded from the `WaterBlock` constructor: one `add` layer. -/
def WaterBlock_body_region : Region :=
  (Region.empty.add_geometry CreatWaterBlockShape RegionBooleanOps.add).done_modeling

/-- Embedded from the `WallBoundary` constructor: outer wall added, inner wall
    subtracted, inlet block subtracted, in that order. -/
def WallBoundary_body_region : Region :=
  (((Region.empty.add_geometry outer_wall_shape RegionBooleanOps.add).add_geometry
      inner_wall_shape RegionBooleanOps.sub).add_geometry
      CreatWaterBlockShape RegionBooleanOps.sub).done_modeling

/-- Embedded from the `FluidObserver` constructor: the direct-specification
    input table holds `(Point(DL, 0.2), 0.0)`. -/
def FluidObserver_body_input_points_volumes : List (Vec2 × ℚ) :=
  [(⟨DL, 2 / 10⟩, 0)]

end FillingTank

namespace TaylorGreen

/-- Geometry parameters of taylor_green.cpp: `DL = 1.0`, `DH = 1.0`. -/
def DL : ℚ := 1
def DH : ℚ := 1

/-- Embedded from the `WaterBlock` constructor in taylor_green.cpp: the unit
    square contour. -/
def water_block_shape : List Vec2 :=
  [⟨0, 0⟩, ⟨0, DH⟩, ⟨DL, DH⟩, ⟨DL, 0⟩, ⟨0, 0⟩]

/-- Embedded from the `WaterBlock` constructor: one `add` layer, then
    `done_modeling`. This is exactly the spec's square region `[0,1] × [0,1]`. -/
def WaterBlock_body_region : Region :=
  (Region.empty.add_geometry water_block_shape RegionBooleanOps.add).done_modeling

end TaylorGreen

/-- The spec's annulus scenario: outer square `[0,2]²` added, inner square
    `[0.5,1.5]²` subtracted, in that insertion order. -/
def outerSquareShape : List Vec2 :=
  [⟨0, 0⟩, ⟨0, 2⟩, ⟨2, 2⟩, ⟨2, 0⟩, ⟨0, 0⟩]

def innerSquareShape : List Vec2 :=
  [⟨1 / 2, 1 / 2⟩, ⟨1 / 2, 3 / 2⟩, ⟨3 / 2, 3 / 2⟩, ⟨3 / 2, 1 / 2⟩, ⟨1 / 2, 1 / 2⟩]

def annulusRegion : Region :=
  ((Region.empty.add_geometry outerSquareShape RegionBooleanOps.add).add_geometry
      innerSquareShape RegionBooleanOps.sub).done_modeling

/-- A region whose subtracted contour does not overlap the added one: the unit
    square added, the square `[2,3] × [0,1]` subtracted. -/
def detachedSubShape : List Vec2 :=
  [⟨2, 0⟩, ⟨2, 1⟩, ⟨3, 1⟩, ⟨3, 0⟩, ⟨2, 0⟩]

def detachedSubRegion : Region :=
  ((Region.empty.add_geometry TaylorGreen.water_block_shape RegionBooleanOps.add).add_geometry
      detachedSubShape RegionBooleanOps.sub).done_modeling

/-! ## Basic evaluation lemmas -/

lemma finRange_two : List.finRange 2 = [0, 1] := rfl

lemma CalcNumberOfLattices_apply (lower upper : Vec2) (s : ℚ) (i : Fin 2) :
    CalcNumberOfLattices lower upper s i = ⌈(upper.get i - lower.get i) / s⌉ := by
  fin_cases i <;> simp [CalcNumberOfLattices, finRange_two, Function.update]

/-! ## Row-major enumeration lemmas -/

lemma range_product_eq_rowMajorTuples (n1 n2 : ℕ) :
    ((List.range n1).flatMap fun k1 => (List.range n2).map fun k2 => (k1, k2)) =
      rowMajorTuples n1 n2 := by
  induction n1 with
  | zero => simp [rowMajorTuples]
  | succ m ih =>
    rcases Nat.eq_zero_or_pos n2 with rfl | h2
    · simp [rowMajorTuples]
    · rw [List.range_succ, List.flatMap_append, ih]
      have hsm : (m + 1) * n2 = m * n2 + n2 := Nat.succ_mul m n2
      rw [rowMajorTuples, rowMajorTuples, hsm, List.range_add, List.map_append]
      refine congrArg₂ _ rfl ?_
      simp only [List.flatMap_cons, List.flatMap_nil, List.append_nil, List.map_map]
      refine List.map_congr_left ?_
      intro j hj
      rw [List.mem_range] at hj
      simp only [Function.comp_apply, Prod.mk.injEq]
      constructor
      · rw [Nat.add_comm, Nat.add_mul_div_right _ _ h2, Nat.div_eq_of_lt hj, Nat.zero_add]
      · rw [Nat.add_comm, Nat.add_mul_mod_self_right, Nat.mod_eq_of_lt hj]

lemma flatMap_if_singleton {α β : Type} (P : α → Bool) (f : α → β) (l : List α) :
    (l.flatMap fun a => if P a then [f a] else []) =
      l.filterMap fun a => if P a then some (f a) else none := by
  induction l with
  | nil => rfl
  | cons a l ih =>
    simp only [List.flatMap_cons, List.filterMap_cons]
    cases h : P a <;> simp [h, ih]

lemma filterMap_if_eq_map_filter {α β : Type} (P : α → Bool) (f : α → β) (l : List α) :
    (l.filterMap fun a => if P a then some (f a) else none) = (l.filter P).map f := by
  induction l with
  | nil => rfl
  | cons a l ih => cases h : P a <;> simp [List.filterMap_cons, List.filter_cons, h, ih]

lemma flatMap_flatMap_rowMajor {β : Type} (n1 n2 : ℕ) (F : ℕ → ℕ → List β) :
    ((List.range n1).flatMap fun k1 => (List.range n2).flatMap fun k2 => F k1 k2) =
      (rowMajorTuples n1 n2).flatMap fun k => F k.1 k.2 := by
  rw [← range_product_eq_rowMajorTuples, List.flatMap_assoc]
  simp only [List.flatMap_map]

lemma latticeSequence_eq_filterMap (g : ParticleGeneratorLattice) :
    latticeSequence g =
      (rowMajorTuples (g.number_of_lattices_ 0).toNat (g.number_of_lattices_ 1).toNat).filterMap
        fun k =>
          if g.region_.contains (latticePosition g.lower_bound_ g.lattice_spacing_ k.1 k.2) then
            some (latticePosition g.lower_bound_ g.lattice_spacing_ k.1 k.2,
              g.lattice_spacing_ ^ 2)
          else none := by
  rw [latticeSequence,
    flatMap_flatMap_rowMajor (g.number_of_lattices_ 0).toNat (g.number_of_lattices_ 1).toNat
      (fun k1 k2 =>
        if g.region_.contains (latticePosition g.lower_bound_ g.lattice_spacing_ k1 k2) then
          [(latticePosition g.lower_bound_ g.lattice_spacing_ k1 k2, g.lattice_spacing_ ^ 2)]
        else []),
    flatMap_if_singleton]

lemma mem_latticeSequence {g : ParticleGeneratorLattice} {pv : Vec2 × ℚ} :
    pv ∈ latticeSequence g ↔
      ∃ k1 k2, k1 < (g.number_of_lattices_ 0).toNat ∧ k2 < (g.number_of_lattices_ 1).toNat ∧
        g.region_.contains (latticePosition g.lower_bound_ g.lattice_spacing_ k1 k2) = true ∧
        pv = (latticePosition g.lower_bound_ g.lattice_spacing_ k1 k2,
          g.lattice_spacing_ ^ 2) := by
  simp only [latticeSequence, List.mem_flatMap, List.mem_range]
  constructor
  · rintro ⟨k1, h1, k2, h2, hmem⟩
    by_cases hc :
        g.region_.contains (latticePosition g.lower_bound_ g.lattice_spacing_ k1 k2) = true
    · simp only [hc, if_true, List.mem_singleton] at hmem
      exact ⟨k1, k2, h1, h2, hc, hmem⟩
    · rw [if_neg hc] at hmem
      simp at hmem
  · rintro ⟨k1, k2, h1, h2, hc, rfl⟩
    exact ⟨k1, h1, k2, h2, by simp [hc]⟩

/-! ## Bounding-box fold lemmas -/

lemma foldl_min_le_init (f : Vec2 → ℚ) : ∀ (l : List Vec2) (a : ℚ),
    l.foldl (fun m w => min m (f w)) a ≤ a
  | [], _ => le_refl _
  | w :: l, a => le_trans (foldl_min_le_init f l (min a (f w))) (min_le_left _ _)

lemma foldl_min_le_mem (f : Vec2 → ℚ) : ∀ (l : List Vec2) (a : ℚ) (w : Vec2), w ∈ l →
    l.foldl (fun m w => min m (f w)) a ≤ f w
  | u :: l, a, w, h => by
    rcases List.mem_cons.mp h with rfl | h
    · exact le_trans (foldl_min_le_init f l (min a (f w))) (min_le_right _ _)
    · exact foldl_min_le_mem f l (min a (f u)) w h

lemma init_le_foldl_max (f : Vec2 → ℚ) : ∀ (l : List Vec2) (a : ℚ),
    a ≤ l.foldl (fun m w => max m (f w)) a
  | [], _ => le_refl _
  | w :: l, a => le_trans (le_max_left _ _) (init_le_foldl_max f l (max a (f w)))

lemma mem_le_foldl_max (f : Vec2 → ℚ) : ∀ (l : List Vec2) (a : ℚ) (w : Vec2), w ∈ l →
    f w ≤ l.foldl (fun m w => max m (f w)) a
  | u :: l, a, w, h => by
    rcases List.mem_cons.mp h with rfl | h
    · exact le_trans (le_max_right _ _) (init_le_foldl_max f l (max a (f w)))
    · exact mem_le_foldl_max f l (max a (f u)) w h

lemma regionbound_spec {r : Region} {v : Vec2} (hv : v ∈ r.addVertices) :
    (regionbound r).1.x ≤ v.x ∧ v.x ≤ (regionbound r).2.x ∧
    (regionbound r).1.y ≤ v.y ∧ v.y ≤ (regionbound r).2.y := by
  unfold regionbound
  rcases h : r.addVertices with _ | ⟨u, vs⟩
  · rw [h] at hv
    exact absurd hv (List.not_mem_nil v)
  · rw [h] at hv
    rcases List.mem_cons.mp hv with rfl | hv
    · exact ⟨foldl_min_le_init _ vs _, init_le_foldl_max _ vs _,
        foldl_min_le_init _ vs _, init_le_foldl_max _ vs _⟩
    · exact ⟨foldl_min_le_mem _ vs _ _ hv, mem_le_foldl_max _ vs _ _ hv,
        foldl_min_le_mem _ vs _ _ hv, mem_le_foldl_max _ vs _ _ hv⟩

/-! ## Geometry lemmas: segment and ray-crossing bounds -/

lemma mem_of_mem_edges {c : Contour} {e : Vec2 × Vec2} (h : e ∈ edges c) :
    e.1 ∈ c ∧ e.2 ∈ c := by
  obtain ⟨a, b⟩ := e
  obtain ⟨ha, hb⟩ := List.of_mem_zip h
  exact ⟨ha, (List.tail_sublist c).subset hb⟩

lemma onSegment_bounds {p a b : Vec2} (h : onSegment p a b = true) :
    min a.x b.x ≤ p.x ∧ p.x ≤ max a.x b.x ∧ min a.y b.y ≤ p.y ∧ p.y ≤ max a.y b.y := by
  simp only [onSegment, Bool.and_eq_true, decide_eq_true_eq] at h
  exact ⟨h.1.1.1.2, h.1.1.2, h.1.2, h.2⟩

lemma straddles_cases {p : Vec2} {e : Vec2 × Vec2} (h : straddles p e = true) :
    (e.2.y ≤ p.y ∧ p.y < e.1.y) ∨ (e.1.y ≤ p.y ∧ p.y < e.2.y) := by
  by_cases h1 : p.y < e.1.y
  · by_cases h2 : p.y < e.2.y
    · simp [straddles, h1, h2] at h
    · exact Or.inl ⟨not_lt.mp h2, h1⟩
  · by_cases h2 : p.y < e.2.y
    · exact Or.inr ⟨not_lt.mp h1, h2⟩
    · simp [straddles, h1, h2] at h

lemma convex_le_max (t u v : ℚ) (h0 : 0 ≤ t) (h1 : t ≤ 1) : u + t * (v - u) ≤ max u v := by
  rcases le_total u v with h | h
  · rw [max_eq_right h]; nlinarith
  · rw [max_eq_left h]; nlinarith

lemma min_le_convex (t u v : ℚ) (h0 : 0 ≤ t) (h1 : t ≤ 1) : min u v ≤ u + t * (v - u) := by
  rcases le_total u v with h | h
  · rw [min_eq_left h]; nlinarith
  · rw [min_eq_right h]; nlinarith

lemma crossing_x_eq {p : Vec2} {e : Vec2 × Vec2} (h : straddles p e = true) :
    ∃ t, 0 ≤ t ∧ t ≤ 1 ∧
      e.1.x + (p.y - e.1.y) * (e.2.x - e.1.x) / (e.2.y - e.1.y) =
        e.1.x + t * (e.2.x - e.1.x) := by
  refine ⟨(p.y - e.1.y) / (e.2.y - e.1.y), ?_, ?_, by rw [mul_div_right_comm]⟩
  · rcases straddles_cases h with ⟨h2, h1⟩ | ⟨h1, h2⟩
    · rw [← neg_div_neg_eq]
      apply div_nonneg <;> linarith
    · apply div_nonneg <;> linarith
  · rcases straddles_cases h with ⟨h2, h1⟩ | ⟨h1, h2⟩
    · rw [← neg_div_neg_eq, div_le_one (by linarith)]
      linarith
    · rw [div_le_one (by linarith)]
      linarith

lemma edgeCrosses_straddles {p : Vec2} {e : Vec2 × Vec2} (h : edgeCrosses p e = true) :
    straddles p e = true := by
  simp only [edgeCrosses, Bool.and_eq_true] at h
  exact h.1

lemma edgeCrosses_x_lt {p : Vec2} {e : Vec2 × Vec2} (h : edgeCrosses p e = true) :
    p.x < max e.1.x e.2.x := by
  simp only [edgeCrosses, Bool.and_eq_true, decide_eq_true_eq] at h
  obtain ⟨t, h0, h1, heq⟩ := crossing_x_eq h.1
  calc p.x < e.1.x + (p.y - e.1.y) * (e.2.x - e.1.x) / (e.2.y - e.1.y) := h.2
    _ = e.1.x + t * (e.2.x - e.1.x) := heq
    _ ≤ max e.1.x e.2.x := convex_le_max t e.1.x e.2.x h0 h1

lemma straddles_y_bounds {p : Vec2} {e : Vec2 × Vec2} (h : straddles p e = true) :
    min e.1.y e.2.y ≤ p.y ∧ p.y < max e.1.y e.2.y := by
  rcases straddles_cases h with ⟨h2, h1⟩ | ⟨h1, h2⟩
  · exact ⟨le_trans (min_le_right _ _) h2, lt_of_lt_of_le h1 (le_max_left _ _)⟩
  · exact ⟨le_trans (min_le_left _ _) h1, lt_of_lt_of_le h2 (le_max_right _ _)⟩

/-! ## Parity of boundary straddles for a closed contour -/

lemma changes_parity : ∀ (l : List Bool) (a : Bool),
    (((a :: l).zip l).countP fun e => e.1 != e.2) % 2 = if a = l.getLastD a then 0 else 1
  | [], a => by simp
  | c :: cs, a => by
    have ih := changes_parity cs c
    rw [List.zip_cons_cons, List.countP_cons, List.getLastD_cons]
    by_cases hac : a = c
    · subst hac
      simpa using ih
    · rw [if_pos (bne_iff_ne.mpr hac)]
      have hswap : ∀ g : Bool, (a = g) ↔ ¬ c = g := by
        intro g
        cases a <;> cases c <;> cases g <;> simp_all
      by_cases hcg : c = cs.getLastD c
      · rw [if_pos hcg] at ih
        rw [if_neg (fun h => ((hswap _).mp h) hcg)]
        omega
      · rw [if_neg hcg] at ih
        rw [if_pos ((hswap _).mpr hcg)]
        omega

lemma getLast?_cons_eq_getLastD {α : Type} : ∀ (a : α) (l : List α),
    (a :: l).getLast? = some (l.getLastD a)
  | _, [] => rfl
  | a, b :: l => by
    rw [List.getLast?_cons_cons, getLast?_cons_eq_getLastD b l, List.getLastD_cons]

lemma countP_adj_even_of_closed (l : List Bool) (h : l.head? = l.getLast?) :
    ((l.zip l.tail).countP fun e => e.1 != e.2) % 2 = 0 := by
  cases l with
  | nil => rfl
  | cons a rest =>
    rw [getLast?_cons_eq_getLastD] at h
    simp only [List.head?_cons, Option.some.injEq] at h
    rw [List.tail_cons, changes_parity rest a, if_pos h]

lemma straddle_count_even {c : Contour} {p : Vec2} (hcl : c.head? = c.getLast?) :
    ((edges c).countP (straddles p)) % 2 = 0 := by
  have key : (edges c).countP (straddles p) =
      (((c.map fun v => decide (p.y < v.y)).zip
          (c.map fun v => decide (p.y < v.y)).tail).countP fun e => e.1 != e.2) := by
    rw [← List.map_tail, List.zip_map, List.countP_map]
    rfl
  rw [key]
  apply countP_adj_even_of_closed
  rw [List.head?_map, List.getLast?_map, hcl]

/-! ## Containment forces the point into the contour's vertex box -/

lemma containsClosed_cases {c : Contour} {p : Vec2} (h : containsClosed c p = true) :
    (∃ e ∈ edges c, onSegment p e.1 e.2 = true) ∨ crossingNumber c p % 2 = 1 := by
  simp only [containsClosed, Bool.or_eq_true, decide_eq_true_eq] at h
  rcases h with h | h
  · left
    simpa [onContour, List.any_eq_true] using h
  · right
    exact h

lemma crossing_exists_of_odd {c : Contour} {p : Vec2} (h : crossingNumber c p % 2 = 1) :
    ∃ e ∈ edges c, edgeCrosses p e = true := by
  rw [← List.countP_pos_iff]
  rcases Nat.eq_zero_or_pos ((edges c).countP (edgeCrosses p)) with h0 | h0
  · rw [crossingNumber, h0] at h
    simp at h
  · exact h0

lemma containsClosed_px_le {c : Contour} {p : Vec2} {X : ℚ}
    (h : containsClosed c p = true) (hX : ∀ v ∈ c, v.x ≤ X) : p.x ≤ X := by
  rcases containsClosed_cases h with ⟨e, he, hseg⟩ | hodd
  · obtain ⟨h1, h2⟩ := mem_of_mem_edges he
    exact le_trans (onSegment_bounds hseg).2.1 (max_le (hX _ h1) (hX _ h2))
  · obtain ⟨e, he, hcross⟩ := crossing_exists_of_odd hodd
    obtain ⟨h1, h2⟩ := mem_of_mem_edges he
    exact le_of_lt (lt_of_lt_of_le (edgeCrosses_x_lt hcross) (max_le (hX _ h1) (hX _ h2)))

lemma containsClosed_py_le {c : Contour} {p : Vec2} {Y : ℚ}
    (h : containsClosed c p = true) (hY : ∀ v ∈ c, v.y ≤ Y) : p.y ≤ Y := by
  rcases containsClosed_cases h with ⟨e, he, hseg⟩ | hodd
  · obtain ⟨h1, h2⟩ := mem_of_mem_edges he
    exact le_trans (onSegment_bounds hseg).2.2.2 (max_le (hY _ h1) (hY _ h2))
  · obtain ⟨e, he, hcross⟩ := crossing_exists_of_odd hodd
    obtain ⟨h1, h2⟩ := mem_of_mem_edges he
    exact le_of_lt (lt_of_lt_of_le
      (straddles_y_bounds (edgeCrosses_straddles hcross)).2 (max_le (hY _ h1) (hY _ h2)))

lemma containsClosed_le_py {c : Contour} {p : Vec2} {B : ℚ}
    (h : containsClosed c p = true) (hB : ∀ v ∈ c, B ≤ v.y) : B ≤ p.y := by
  rcases containsClosed_cases h with ⟨e, he, hseg⟩ | hodd
  · obtain ⟨h1, h2⟩ := mem_of_mem_edges he
    exact le_trans (le_min (hB _ h1) (hB _ h2)) (onSegment_bounds hseg).2.2.1
  · obtain ⟨e, he, hcross⟩ := crossing_exists_of_odd hodd
    obtain ⟨h1, h2⟩ := mem_of_mem_edges he
    exact le_trans (le_min (hB _ h1) (hB _ h2))
      (straddles_y_bounds (edgeCrosses_straddles hcross)).1

lemma containsClosed_le_px {c : Contour} {p : Vec2} {B : ℚ}
    (h : containsClosed c p = true) (hcl : c.head? = c.getLast?)
    (hB : ∀ v ∈ c, B ≤ v.x) : B ≤ p.x := by
  rcases containsClosed_cases h with ⟨e, he, hseg⟩ | hodd
  · obtain ⟨h1, h2⟩ := mem_of_mem_edges he
    exact le_trans (le_min (hB _ h1) (hB _ h2)) (onSegment_bounds hseg).1
  · by_contra hpx
    push_neg at hpx
    have hcount : (edges c).countP (edgeCrosses p) = (edges c).countP (straddles p) := by
      apply List.countP_congr
      intro e he
      constructor
      · exact fun hc => edgeCrosses_straddles hc
      · intro hs
        simp only [edgeCrosses, Bool.and_eq_true, decide_eq_true_eq]
        refine ⟨hs, ?_⟩
        obtain ⟨h1, h2⟩ := mem_of_mem_edges he
        obtain ⟨t, ht0, ht1, heq⟩ := crossing_x_eq hs
        calc p.x < B := hpx
          _ ≤ min e.1.x e.2.x := le_min (hB _ h1) (hB _ h2)
          _ ≤ e.1.x + (p.y - e.1.y) * (e.2.x - e.1.x) / (e.2.y - e.1.y) := by
              rw [heq]
              exact min_le_convex t e.1.x e.2.x ht0 ht1
    rw [crossingNumber, hcount, straddle_count_even hcl] at hodd
    simp at hodd

/-! ## Characterisation of the layered containment fold -/

lemma contains_append_add (l : List (Contour × RegionBooleanOps)) (c : Contour) (p : Vec2) :
    Region.contains ⟨l ++ [(c, RegionBooleanOps.add)]⟩ p =
      (Region.contains ⟨l⟩ p || containsClosed c p) := by
  simp [Region.contains, List.foldl_append]

lemma contains_append_sub (l : List (Contour × RegionBooleanOps)) (c : Contour) (p : Vec2) :
    Region.contains ⟨l ++ [(c, RegionBooleanOps.sub)]⟩ p =
      (Region.contains ⟨l⟩ p && !containsOpen c p) := by
  simp [Region.contains, List.foldl_append]

lemma containsList_iff (p : Vec2) : ∀ l : List (Contour × RegionBooleanOps),
    Region.contains ⟨l⟩ p = true ↔
      ∃ l1 c l2, l = l1 ++ (c, RegionBooleanOps.add) :: l2 ∧ containsClosed c p = true ∧
        ∀ g ∈ l2, g.2 = RegionBooleanOps.sub → containsOpen g.1 p = false := by
  intro l
  induction l using List.reverseRecOn with
  | nil =>
    constructor
    · intro h
      exact absurd h (by simp [Region.contains])
    · rintro ⟨l1, c, l2, hsplit, -, -⟩
      exact absurd hsplit.symm (by simp)
  | append_singleton l g ih =>
    obtain ⟨c, op⟩ := g
    cases op with
    | add =>
      rw [contains_append_add, Bool.or_eq_true, ih]
      constructor
      · rintro (⟨l1, c', l2, hsplit, hc', hsubs⟩ | hc)
        · refine ⟨l1, c', l2 ++ [(c, RegionBooleanOps.add)], by simp [hsplit], hc', ?_⟩
          intro g hg hop
          rcases List.mem_append.mp hg with hg | hg
          · exact hsubs g hg hop
          · simp only [List.mem_singleton] at hg
            subst hg
            simp at hop
        · exact ⟨l, c, [], rfl, hc, by simp⟩
      · rintro ⟨l1, c', l2, hsplit, hc', hsubs⟩
        rcases List.eq_nil_or_concat l2 with rfl | ⟨l2', z, rfl⟩
        · obtain ⟨h1, h2⟩ := List.append_inj' hsplit rfl
          simp only [List.cons.injEq, Prod.mk.injEq] at h2
          obtain ⟨⟨hcc, -⟩, -⟩ := h2
          subst hcc
          exact Or.inr hc'
        · rw [List.concat_eq_append,
            show l1 ++ (c', RegionBooleanOps.add) :: (l2' ++ [z]) =
              (l1 ++ (c', RegionBooleanOps.add) :: l2') ++ [z] by simp] at hsplit
          obtain ⟨h1, h2⟩ := List.append_inj' hsplit rfl
          simp only [List.cons.injEq, and_true] at h2
          left
          refine ⟨l1, c', l2', h1, hc', ?_⟩
          intro g hg hop
          exact hsubs g (by simp [List.concat_eq_append, hg]) hop
    | sub =>
      rw [contains_append_sub, Bool.and_eq_true, Bool.not_eq_true', ih]
      constructor
      · rintro ⟨⟨l1, c', l2, hsplit, hc', hsubs⟩, hopen⟩
        refine ⟨l1, c', l2 ++ [(c, RegionBooleanOps.sub)], by simp [hsplit], hc', ?_⟩
        intro g hg hop
        rcases List.mem_append.mp hg with hg | hg
        · exact hsubs g hg hop
        · simp only [List.mem_singleton] at hg
          subst hg
          exact hopen
      · rintro ⟨l1, c', l2, hsplit, hc', hsubs⟩
        rcases List.eq_nil_or_concat l2 with rfl | ⟨l2', z, rfl⟩
        · obtain ⟨-, h2⟩ := List.append_inj' hsplit rfl
          simp only [List.cons.injEq, Prod.mk.injEq] at h2
          exact absurd h2.1.2.symm (by simp)
        · rw [List.concat_eq_append,
            show l1 ++ (c', RegionBooleanOps.add) :: (l2' ++ [z]) =
              (l1 ++ (c', RegionBooleanOps.add) :: l2') ++ [z] by simp] at hsplit
          obtain ⟨h1, h2⟩ := List.append_inj' hsplit rfl
          simp only [List.cons.injEq, and_true] at h2
          subst h2
          constructor
          · refine ⟨l1, c', l2', h1, hc', ?_⟩
            intro g hg hop
            exact hsubs g (by simp [List.concat_eq_append, hg]) hop
          · exact hsubs (c, RegionBooleanOps.sub) (by simp [List.concat_eq_append]) rfl

lemma contains_iff_layerWitness (r : Region) (p : Vec2) :
    r.contains p = true ↔ LayerWitness r p := by
  obtain ⟨l⟩ := r
  exact containsList_iff p l

/-! ## A contained point lies in the region bounding box -/

lemma mem_addVertices_of_layer {r : Region} {l1 l2 : List (Contour × RegionBooleanOps)}
    {c : Contour} (hsplit : r.ops = l1 ++ (c, RegionBooleanOps.add) :: l2)
    {v : Vec2} (hv : v ∈ c) : v ∈ r.addVertices := by
  rw [Region.addVertices, hsplit]
  rw [List.mem_flatMap]
  exact ⟨(c, RegionBooleanOps.add), by simp, hv⟩

lemma contains_in_regionbound {r : Region} {p : Vec2} (hval : Region.valid r)
    (hc : r.contains p = true) :
    (regionbound r).1.x ≤ p.x ∧ p.x ≤ (regionbound r).2.x ∧
    (regionbound r).1.y ≤ p.y ∧ p.y ≤ (regionbound r).2.y := by
  obtain ⟨l1, c, l2, hsplit, hcc, -⟩ := (contains_iff_layerWitness r p).mp hc
  have hmemops : (c, RegionBooleanOps.add) ∈ r.ops := by rw [hsplit]; simp
  obtain ⟨-, hcl⟩ := hval _ hmemops
  have hbounds : ∀ v ∈ c, (regionbound r).1.x ≤ v.x ∧ v.x ≤ (regionbound r).2.x ∧
      (regionbound r).1.y ≤ v.y ∧ v.y ≤ (regionbound r).2.y :=
    fun v hv => regionbound_spec (mem_addVertices_of_layer hsplit hv)
  exact ⟨containsClosed_le_px hcc hcl (fun v hv => (hbounds v hv).1),
         containsClosed_px_le hcc (fun v hv => (hbounds v hv).2.1),
         containsClosed_le_py hcc (fun v hv => (hbounds v hv).2.2.1),
         containsClosed_py_le hcc (fun v hv => (hbounds v hv).2.2.2)⟩

/-! ## No duplicate positions -/

lemma rowMajorTuples_nodup (n1 n2 : ℕ) : (rowMajorTuples n1 n2).Nodup := by
  rcases Nat.eq_zero_or_pos n2 with rfl | h2
  · simp [rowMajorTuples]
  · refine List.Nodup.map ?_ (List.nodup_range _)
    intro s t hst
    simp only [Prod.mk.injEq] at hst
    rw [← Nat.div_add_mod s n2, ← Nat.div_add_mod t n2, hst.1, hst.2]

lemma latticePosition_injective {lower : Vec2} {s : ℚ} (hs : s ≠ 0) :
    Function.Injective fun k : ℕ × ℕ => latticePosition lower s k.1 k.2 := by
  intro a b hab
  simp only [latticePosition, Vec2.mk.injEq, add_right_inj] at hab
  obtain ⟨hx, hy⟩ := hab
  have h1 : (a.1 : ℚ) = b.1 := by
    have := mul_right_cancel₀ hs hx
    linarith
  have h2 : (a.2 : ℚ) = b.2 := by
    have := mul_right_cancel₀ hs hy
    linarith
  exact Prod.ext (Nat.cast_injective h1) (Nat.cast_injective h2)

lemma latticeSequence_positions_nodup (g : ParticleGeneratorLattice)
    (hs : g.lattice_spacing_ ≠ 0) : ((latticeSequence g).map Prod.fst).Nodup := by
  rw [latticeSequence_eq_filterMap, List.map_filterMap]
  have hopt : ∀ k : ℕ × ℕ,
      Option.map Prod.fst
        (if g.region_.contains (latticePosition g.lower_bound_ g.lattice_spacing_ k.1 k.2) then
          some (latticePosition g.lower_bound_ g.lattice_spacing_ k.1 k.2,
            g.lattice_spacing_ ^ 2)
        else none) =
      if g.region_.contains (latticePosition g.lower_bound_ g.lattice_spacing_ k.1 k.2) then
        some (latticePosition g.lower_bound_ g.lattice_spacing_ k.1 k.2)
      else none := by
    intro k
    split <;> rfl
  simp only [hopt]
  rw [show (fun k : ℕ × ℕ =>
      if g.region_.contains (latticePosition g.lower_bound_ g.lattice_spacing_ k.1 k.2) then
        some (latticePosition g.lower_bound_ g.lattice_spacing_ k.1 k.2)
      else none) =
    fun k : ℕ × ℕ =>
      if (fun k : ℕ × ℕ =>
          g.region_.contains (latticePosition g.lower_bound_ g.lattice_spacing_ k.1 k.2)) k then
        some ((fun k : ℕ × ℕ => latticePosition g.lower_bound_ g.lattice_spacing_ k.1 k.2) k)
      else none from rfl, filterMap_if_eq_map_filter]
  exact List.Nodup.map (latticePosition_injective hs)
    (List.Nodup.filter _ (rowMajorTuples_nodup _ _))

/-! ## Concrete evaluations for the unit-square region of taylor_green.cpp -/

lemma tg_bound : regionbound TaylorGreen.WaterBlock_body_region = (⟨0, 0⟩, ⟨1, 1⟩) := by
  norm_num [regionbound, Region.addVertices, TaylorGreen.WaterBlock_body_region,
    TaylorGreen.water_block_shape, TaylorGreen.DL, TaylorGreen.DH, Region.empty,
    Region.add_geometry, Region.done_modeling]

lemma tg_gen : mkParticleGeneratorLattice TaylorGreen.WaterBlock_body_region (1/2) =
    ⟨TaylorGreen.WaterBlock_body_region, ⟨0, 0⟩, ⟨1, 1⟩, 1/2, fun _ => 2⟩ := by
  simp only [mkParticleGeneratorLattice, tg_bound]
  refine congrArg _ ?_
  funext i
  rw [CalcNumberOfLattices_apply]
  fin_cases i <;> norm_num [Vec2.get, Int.ceil_eq_iff]

lemma toNat_two : (2:ℤ).toNat = 2 := rfl

lemma tg_latticeSequence :
    latticeSequence (mkParticleGeneratorLattice TaylorGreen.WaterBlock_body_region (1/2)) =
      [(⟨1/4, 1/4⟩, 1/4), (⟨1/4, 3/4⟩, 1/4), (⟨3/4, 1/4⟩, 1/4), (⟨3/4, 3/4⟩, 1/4)] := by
  rw [tg_gen]
  simp only [latticeSequence, toNat_two]
  norm_num [List.range_succ, latticePosition,
    Region.contains, containsClosed, containsOpen, onContour, crossingNumber, edges, onSegment,
    straddles, edgeCrosses, List.countP, List.countP.go,
    TaylorGreen.WaterBlock_body_region, TaylorGreen.water_block_shape, TaylorGreen.DL,
    TaylorGreen.DH, Region.empty, Region.add_geometry, Region.done_modeling]

lemma tg_generate :
    generate (mkParticleGeneratorLattice TaylorGreen.WaterBlock_body_region (1/2)) =
      Except.ok [(⟨1/4, 1/4⟩, 1/4), (⟨1/4, 3/4⟩, 1/4), (⟨3/4, 1/4⟩, 1/4), (⟨3/4, 3/4⟩, 1/4)] := by
  rw [← tg_latticeSequence, generate, if_neg]
  rw [tg_gen]
  norm_num

lemma tg_valid : Region.valid TaylorGreen.WaterBlock_body_region := by
  intro g hg
  simp only [TaylorGreen.WaterBlock_body_region, TaylorGreen.water_block_shape,
    Region.done_modeling, Region.add_geometry, Region.empty, List.nil_append,
    List.mem_singleton] at hg
  subst hg
  simp

lemma tg_mem :
    ((⟨1/4, 1/4⟩ : Vec2), (1/4 : ℚ)) ∈
      latticeSequence (mkParticleGeneratorLattice TaylorGreen.WaterBlock_body_region (1/2)) := by
  rw [tg_latticeSequence]
  simp

lemma tg_counts_pos (i : Fin 2) :
    0 < ((mkParticleGeneratorLattice TaylorGreen.WaterBlock_body_region
        (1/2)).number_of_lattices_ i).toNat := by
  rw [tg_gen]
  norm_num

lemma tg_contains_q :
    TaylorGreen.WaterBlock_body_region.contains
      (latticePosition (regionbound TaylorGreen.WaterBlock_body_region).1 (1/2) 0 0) = true := by
  rw [tg_bound]
  norm_num [latticePosition, Region.contains, containsClosed, containsOpen, onContour,
    crossingNumber, edges, onSegment, straddles, edgeCrosses, List.countP, List.countP.go,
    TaylorGreen.WaterBlock_body_region, TaylorGreen.water_block_shape, TaylorGreen.DL,
    TaylorGreen.DH, Region.empty, Region.add_geometry, Region.done_modeling]

/-! ## Concrete evaluations for the annulus and the detached-subtraction region -/

lemma annulus_outer_closed : containsClosed outerSquareShape ⟨1/2, 1/2⟩ = true := by
  norm_num [containsClosed, onContour, crossingNumber, edges, onSegment, straddles,
    edgeCrosses, List.countP, List.countP.go, outerSquareShape]

lemma inner_onContour : onContour innerSquareShape ⟨1/2, 1/2⟩ = true := by
  norm_num [onContour, edges, onSegment, innerSquareShape]

lemma inner_open_false : containsOpen innerSquareShape ⟨1/2, 1/2⟩ = false := by
  simp only [containsOpen, inner_onContour]
  simp

lemma annulus_subs :
    ∀ g ∈ [(innerSquareShape, RegionBooleanOps.sub)],
      g.2 = RegionBooleanOps.sub → containsOpen g.1 ⟨1/2, 1/2⟩ = false := by
  intro g hg _hop
  simp only [List.mem_singleton] at hg
  subst hg
  exact inner_open_false

lemma detached_contains_false : Region.contains detachedSubRegion ⟨5/2, 0⟩ = false := by
  norm_num [Region.contains, detachedSubRegion, detachedSubShape, Region.empty,
    Region.add_geometry, Region.done_modeling, containsClosed, containsOpen, onContour,
    crossingNumber, edges, onSegment, straddles, edgeCrosses, List.countP, List.countP.go,
    TaylorGreen.water_block_shape, TaylorGreen.DL, TaylorGreen.DH]

lemma detached_onContour : onContour detachedSubShape ⟨5/2, 0⟩ = true := by
  norm_num [onContour, edges, onSegment, detachedSubShape]

/-! ## Claim theorems -/

lemma mk_cond_iff (r : Region) (s : ℚ) :
    ((mkParticleGeneratorLattice r s).lattice_spacing_ ≤ 0 ∨
      (mkParticleGeneratorLattice r s).number_of_lattices_ 0 ≤ 0 ∨
      (mkParticleGeneratorLattice r s).number_of_lattices_ 1 ≤ 0) ↔
    (s ≤ 0 ∨ ∃ i : Fin 2, (mkParticleGeneratorLattice r s).number_of_lattices_ i ≤ 0) := by
  constructor
  · rintro (h | h | h)
    · exact Or.inl h
    · exact Or.inr ⟨0, h⟩
    · exact Or.inr ⟨1, h⟩
  · rintro (h | ⟨i, h⟩)
    · exact Or.inl h
    · fin_cases i
      · exact Or.inr (Or.inl h)
      · exact Or.inr (Or.inr h)

/-- Claim C1: for every finalized region with bounding box (lower, upper) and every
    positive spacing `s`, the lattice count computed by the generator along each
    axis `i` equals `⌈(upper i - lower i) / s⌉`. -/
theorem claim_lattice_count_ceil (r : Region) (s : ℚ) (hs : 0 < s) (i : Fin 2) :
    (mkParticleGeneratorLattice r s).number_of_lattices_ i =
      ⌈((regionbound r).2.get i - (regionbound r).1.get i) / s⌉ :=
  CalcNumberOfLattices_apply (regionbound r).1 (regionbound r).2 s i

theorem claim_lattice_count_ceil_witness :
    (mkParticleGeneratorLattice TaylorGreen.WaterBlock_body_region (1/2)).number_of_lattices_ 0 =
      ⌈((regionbound TaylorGreen.WaterBlock_body_region).2.get 0 -
          (regionbound TaylorGreen.WaterBlock_body_region).1.get 0) / ((1:ℚ)/2)⌉ :=
  claim_lattice_count_ceil TaylorGreen.WaterBlock_body_region (1/2) (by norm_num) 0

/-- Claim C2: `generate` fails with `DegenerateRegionError` exactly when the spacing
    is nonpositive or the computed lattice count along some axis is nonpositive;
    in every other case it returns the (possibly empty) emission list, never an
    error. -/
theorem claim_degenerate_error_iff (r : Region) (s : ℚ) :
    (generate (mkParticleGeneratorLattice r s) = Except.error GenError.DegenerateRegionError ↔
      s ≤ 0 ∨ ∃ i : Fin 2, (mkParticleGeneratorLattice r s).number_of_lattices_ i ≤ 0) ∧
    (¬(s ≤ 0 ∨ ∃ i : Fin 2, (mkParticleGeneratorLattice r s).number_of_lattices_ i ≤ 0) →
      generate (mkParticleGeneratorLattice r s) =
        Except.ok (latticeSequence (mkParticleGeneratorLattice r s))) := by
  constructor
  · unfold generate
    split
    · rename_i h
      exact iff_of_true rfl ((mk_cond_iff r s).mp h)
    · rename_i h
      exact iff_of_false (by simp) fun hr => h ((mk_cond_iff r s).mpr hr)
  · intro hn
    unfold generate
    rw [if_neg fun hc => hn ((mk_cond_iff r s).mp hc)]

theorem claim_degenerate_error_iff_witness :
    generate (mkParticleGeneratorLattice TaylorGreen.WaterBlock_body_region (-1)) =
      Except.error GenError.DegenerateRegionError :=
  (claim_degenerate_error_iff TaylorGreen.WaterBlock_body_region (-1)).1.mpr
    (Or.inl (by norm_num))

/-- Claim C3: for every index tuple `(k1, k2)` with `0 ≤ ki < ni` the candidate
    position is the cell center `lower + (k + 1/2) * s`, the pair
    `(position, s^2)` is emitted iff the region contains the position, and every
    emitted particle carries the volume `s^2`. -/
theorem claim_cell_center_emission (r : Region) (s : ℚ) (hs : 0 < s) (k1 k2 : ℕ)
    (h1 : k1 < ((mkParticleGeneratorLattice r s).number_of_lattices_ 0).toNat)
    (h2 : k2 < ((mkParticleGeneratorLattice r s).number_of_lattices_ 1).toNat) :
    (((latticePosition (regionbound r).1 s k1 k2, s ^ 2) ∈
        latticeSequence (mkParticleGeneratorLattice r s)) ↔
      r.contains (latticePosition (regionbound r).1 s k1 k2) = true) ∧
    ∀ pv ∈ latticeSequence (mkParticleGeneratorLattice r s), pv.2 = s ^ 2 := by
  constructor
  · rw [mem_latticeSequence]
    constructor
    · rintro ⟨a, b, -, -, hc, heq⟩
      rw [Prod.mk.injEq] at heq
      rw [heq.1]
      exact hc
    · intro hc
      exact ⟨k1, k2, h1, h2, hc, rfl⟩
  · intro pv hpv
    obtain ⟨a, b, -, -, -, rfl⟩ := mem_latticeSequence.mp hpv
    rfl

theorem claim_cell_center_emission_witness :
    (latticePosition (regionbound TaylorGreen.WaterBlock_body_region).1 (1/2) 0 0,
        ((1:ℚ)/2) ^ 2) ∈
      latticeSequence (mkParticleGeneratorLattice TaylorGreen.WaterBlock_body_region (1/2)) :=
  (claim_cell_center_emission TaylorGreen.WaterBlock_body_region (1/2) (by norm_num) 0 0
      (tg_counts_pos 0) (tg_counts_pos 1)).1.mpr tg_contains_q

/-- Claim C4: the square region `[0,1] × [0,1]` (the water block of
    taylor_green.cpp) with spacing `1/2` generates exactly the 4 cell centers
    `(1/4,1/4), (1/4,3/4), (3/4,1/4), (3/4,3/4)`, each with volume `1/4`. -/
theorem claim_square_four_particles :
    generate (mkParticleGeneratorLattice TaylorGreen.WaterBlock_body_region (1/2)) =
      Except.ok [(⟨1/4, 1/4⟩, 1/4), (⟨1/4, 3/4⟩, 1/4), (⟨3/4, 1/4⟩, 1/4), (⟨3/4, 3/4⟩, 1/4)] :=
  tg_generate

/-- Claim C5: for every structurally valid region and positive spacing, every
    emitted position lies inside the region bounding box, satisfies the region
    containment test, and no position is emitted twice. -/
theorem claim_emitted_in_bbox_nodup (r : Region) (s : ℚ)
    (hval : Region.valid r) (hs : 0 < s) :
    (∀ pv ∈ latticeSequence (mkParticleGeneratorLattice r s),
        ((regionbound r).1.x ≤ pv.1.x ∧ pv.1.x ≤ (regionbound r).2.x ∧
         (regionbound r).1.y ≤ pv.1.y ∧ pv.1.y ≤ (regionbound r).2.y) ∧
        r.contains pv.1 = true) ∧
    ((latticeSequence (mkParticleGeneratorLattice r s)).map Prod.fst).Nodup := by
  constructor
  · intro pv hpv
    obtain ⟨k1, k2, -, -, hc, rfl⟩ := mem_latticeSequence.mp hpv
    exact ⟨contains_in_regionbound hval hc, hc⟩
  · exact latticeSequence_positions_nodup _ (ne_of_gt hs)

theorem claim_emitted_in_bbox_nodup_witness :
    TaylorGreen.WaterBlock_body_region.contains ((⟨1/4, 1/4⟩ : Vec2), (1/4 : ℚ)).1 = true ∧
    ((latticeSequence (mkParticleGeneratorLattice TaylorGreen.WaterBlock_body_region
        (1/2))).map Prod.fst).Nodup :=
  ⟨((claim_emitted_in_bbox_nodup TaylorGreen.WaterBlock_body_region (1/2) tg_valid
      (by norm_num)).1 (⟨1/4, 1/4⟩, 1/4) tg_mem).2,
   (claim_emitted_in_bbox_nodup TaylorGreen.WaterBlock_body_region (1/2) tg_valid
      (by norm_num)).2⟩

/-- Claim C6: the emission loop visits the index tuples in row-major order with
    the last axis fastest — the emitted sequence is the row-major enumeration
    `t ↦ (t / n2, t % n2)` filtered by containment — and the list returned by a
    successful `generate` is exactly that sequence. -/
theorem claim_row_major_order (g : ParticleGeneratorLattice) :
    latticeSequence g =
      (rowMajorTuples (g.number_of_lattices_ 0).toNat
          (g.number_of_lattices_ 1).toNat).filterMap
        (fun k =>
          if g.region_.contains (latticePosition g.lower_bound_ g.lattice_spacing_ k.1 k.2) then
            some (latticePosition g.lower_bound_ g.lattice_spacing_ k.1 k.2,
              g.lattice_spacing_ ^ 2)
          else none) ∧
    ∀ l, generate g = Except.ok l → l = latticeSequence g := by
  refine ⟨latticeSequence_eq_filterMap g, ?_⟩
  intro l hl
  unfold generate at hl
  split at hl
  · exact absurd hl (by simp)
  · simpa using hl.symm

theorem claim_row_major_order_witness :
    [((⟨1/4, 1/4⟩ : Vec2), (1/4 : ℚ)), (⟨1/4, 3/4⟩, 1/4), (⟨3/4, 1/4⟩, 1/4),
        (⟨3/4, 3/4⟩, 1/4)] =
      latticeSequence (mkParticleGeneratorLattice TaylorGreen.WaterBlock_body_region (1/2)) :=
  (claim_row_major_order
      (mkParticleGeneratorLattice TaylorGreen.WaterBlock_body_region (1/2))).2 _ tg_generate

/-- Claim C7: generation is deterministic — two runs of `generate` on the same
    constructed generator give the same sequence, and any two generators
    constructed from the same region and spacing generate identical sequences
    in identical order. -/
theorem claim_generate_deterministic (r : Region) (s : ℚ) :
    generate (mkParticleGeneratorLattice r s) = generate (mkParticleGeneratorLattice r s) ∧
    ∀ g1 g2 : ParticleGeneratorLattice,
      g1 = mkParticleGeneratorLattice r s → g2 = mkParticleGeneratorLattice r s →
        generate g1 = generate g2 :=
  ⟨rfl, fun g1 g2 h1 h2 => by rw [h1, h2]⟩

theorem claim_generate_deterministic_witness :
    generate (mkParticleGeneratorLattice TaylorGreen.WaterBlock_body_region (1/2)) =
      generate (mkParticleGeneratorLattice TaylorGreen.WaterBlock_body_region (1/2)) :=
  (claim_generate_deterministic TaylorGreen.WaterBlock_body_region (1/2)).2 _ _ rfl rfl

/-- Claim C8 (counterexample): the region that adds the unit square and then
    subtracts a detached square classifies the point `(5/2, 0)` — which lies
    exactly on an edge of the subtracted contour — as outside, refuting the
    clause "a point exactly on a contour edge is always classified inside". -/
theorem claim_boundary_inside_counterexample :
    Region.contains detachedSubRegion ⟨5/2, 0⟩ = false ∧
    onContour detachedSubShape ⟨5/2, 0⟩ = true ∧
    (detachedSubShape, RegionBooleanOps.sub) ∈ detachedSubRegion.ops :=
  ⟨detached_contains_false, detached_onContour, by
    simp [detachedSubRegion, Region.add_geometry, Region.empty, Region.done_modeling]⟩

/-- Claim C8 (amended): a point is in the region iff some `add` layer contains
    it (boundary included) and no later `sub` layer removes it, where a
    subtraction removes only the open interior; consequently a point exactly on
    a contour edge is inside that contour for `add` purposes and is never
    removed by a `sub`, but an edge point covered by no `add` layer is still
    outside the region. -/
theorem claim_layered_containment_amended (r : Region) (p : Vec2) :
    (r.contains p = true ↔ LayerWitness r p) ∧
    (∀ c : Contour, onContour c p = true →
      containsClosed c p = true ∧ containsOpen c p = false) := by
  refine ⟨contains_iff_layerWitness r p, ?_⟩
  intro c hc
  exact ⟨by simp [containsClosed, hc], by simp [containsOpen, hc]⟩

theorem claim_layered_containment_amended_witness :
    Region.contains annulusRegion ⟨1/2, 1/2⟩ = true ∧
    containsOpen innerSquareShape ⟨1/2, 1/2⟩ = false :=
  ⟨(claim_layered_containment_amended annulusRegion ⟨1/2, 1/2⟩).1.mpr
      ⟨[], outerSquareShape, [(innerSquareShape, RegionBooleanOps.sub)], rfl,
        annulus_outer_closed, annulus_subs⟩,
   ((claim_layered_containment_amended annulusRegion ⟨1/2, 1/2⟩).2 innerSquareShape
      inner_onContour).2⟩

/-- Claim C9 (counterexample): the direct/fictitious-body path does not carry
    positive volumes — the `VoltageObserver` of depolarization.cpp supplies the
    pair `(Point(0.3, 0.7), 0.0)` with volume `0`. -/
theorem claim_positive_volume_counterexample :
    ¬ ∀ pv ∈ Depolarization.VoltageObserver_body_input_points_volumes, 0 < pv.2 := by
  intro h
  have h0 := h ((⟨3/10, 7/10⟩ : Vec2), (0 : ℚ))
    (by simp [Depolarization.VoltageObserver_body_input_points_volumes])
  exact absurd h0 (by norm_num)

/-- Claim C9 (amended): every lattice-generated particle has the positive
    volume `spacing ^ 2`; the direct/fictitious-body input pairs of the shown
    drivers carry volume `0`, so on that path volumes are only nonnegative. -/
theorem claim_particle_volumes_amended (r : Region) (s : ℚ) (hs : 0 < s) :
    (∀ pv ∈ latticeSequence (mkParticleGeneratorLattice r s), pv.2 = s ^ 2 ∧ 0 < pv.2) ∧
    (∀ pv ∈ Depolarization.VoltageObserver_body_input_points_volumes ++
        FillingTank.FluidObserver_body_input_points_volumes, 0 ≤ pv.2) := by
  constructor
  · intro pv hpv
    obtain ⟨a, b, -, -, -, rfl⟩ := mem_latticeSequence.mp hpv
    exact ⟨rfl, pow_pos hs 2⟩
  · intro pv hpv
    simp only [Depolarization.VoltageObserver_body_input_points_volumes,
      FillingTank.FluidObserver_body_input_points_volumes, List.cons_append, List.nil_append,
      List.mem_cons, List.mem_singleton, List.not_mem_nil, or_false] at hpv
    rcases hpv with rfl | rfl <;> norm_num

theorem claim_particle_volumes_amended_witness :
    ((⟨1/4, 1/4⟩ : Vec2), (1/4 : ℚ)).2 = ((1:ℚ)/2) ^ 2 ∧
      (0:ℚ) < ((⟨1/4, 1/4⟩ : Vec2), (1/4 : ℚ)).2 :=
  (claim_particle_volumes_amended TaylorGreen.WaterBlock_body_region (1/2) (by norm_num)).1
    (⟨1/4, 1/4⟩, 1/4) tg_mem

/-- Claim C10: every contour vertex list the driver programs pass to
    `add_geometry` is closed (first vertex equals last, exactly) and has at
    least 3 distinct points, so the `InvalidGeometryError` branch of the
    contour-adding operation is unreachable at every call site in the shown
    code. -/
theorem claim_driver_contours_valid :
    validContourInput Depolarization.CreatShape ∧
    validContourInput FillingTank.CreatWaterBlockShape ∧
    validContourInput FillingTank.outer_wall_shape ∧
    validContourInput FillingTank.inner_wall_shape ∧
    validContourInput TaylorGreen.water_block_shape := by
  refine ⟨⟨rfl, ?_⟩, ⟨rfl, ?_⟩, ⟨rfl, ?_⟩, ⟨rfl, ?_⟩, ⟨rfl, ?_⟩⟩
  · exact ⟨⟨0, 0⟩, by simp [Depolarization.CreatShape],
      ⟨0, Depolarization.H⟩, by simp [Depolarization.CreatShape],
      ⟨Depolarization.L, Depolarization.H⟩, by simp [Depolarization.CreatShape],
      by norm_num [Vec2.mk.injEq, Depolarization.H],
      by norm_num [Vec2.mk.injEq, Depolarization.L],
      by norm_num [Vec2.mk.injEq, Depolarization.L, Depolarization.H]⟩
  · exact ⟨⟨FillingTank.inlet_distance, FillingTank.inlet_height⟩,
      by simp [FillingTank.CreatWaterBlockShape],
      ⟨FillingTank.inlet_distance, FillingTank.LH + FillingTank.inlet_height⟩,
      by simp [FillingTank.CreatWaterBlockShape],
      ⟨FillingTank.LL + FillingTank.inlet_distance, FillingTank.LH + FillingTank.inlet_height⟩,
      by simp [FillingTank.CreatWaterBlockShape],
      by norm_num [Vec2.mk.injEq, FillingTank.LH],
      by norm_num [Vec2.mk.injEq, FillingTank.LL, FillingTank.BW,
        FillingTank.particle_spacing_ref],
      by norm_num [Vec2.mk.injEq, FillingTank.LL, FillingTank.BW, FillingTank.inlet_distance,
        FillingTank.particle_spacing_ref]⟩
  · exact ⟨⟨-FillingTank.BW, -FillingTank.BW⟩, by simp [FillingTank.outer_wall_shape],
      ⟨-FillingTank.BW, FillingTank.DH + FillingTank.BW⟩, by simp [FillingTank.outer_wall_shape],
      ⟨FillingTank.DL + FillingTank.BW, FillingTank.DH + FillingTank.BW⟩,
      by simp [FillingTank.outer_wall_shape],
      by norm_num [Vec2.mk.injEq, FillingTank.DH, FillingTank.BW,
        FillingTank.particle_spacing_ref],
      by norm_num [Vec2.mk.injEq, FillingTank.DL, FillingTank.BW,
        FillingTank.particle_spacing_ref],
      by norm_num [Vec2.mk.injEq, FillingTank.DL, FillingTank.DH, FillingTank.BW,
        FillingTank.particle_spacing_ref]⟩
  · exact ⟨⟨0, 0⟩, by simp [FillingTank.inner_wall_shape],
      ⟨0, FillingTank.DH⟩, by simp [FillingTank.inner_wall_shape],
      ⟨FillingTank.DL, FillingTank.DH⟩, by simp [FillingTank.inner_wall_shape],
      by norm_num [Vec2.mk.injEq, FillingTank.DH],
      by norm_num [Vec2.mk.injEq, FillingTank.DL],
      by norm_num [Vec2.mk.injEq, FillingTank.DL, FillingTank.DH]⟩
  · exact ⟨⟨0, 0⟩, by simp [TaylorGreen.water_block_shape],
      ⟨0, TaylorGreen.DH⟩, by simp [TaylorGreen.water_block_shape],
      ⟨TaylorGreen.DL, TaylorGreen.DH⟩, by simp [TaylorGreen.water_block_shape],
      by norm_num [Vec2.mk.injEq, TaylorGreen.DH],
      by norm_num [Vec2.mk.injEq, TaylorGreen.DL],
      by norm_num [Vec2.mk.injEq, TaylorGreen.DL, TaylorGreen.DH]⟩

end SPHinXsys
